import Mathlib

/-
  Verification of pystreams, a Python port of Java-style streams.

  The repository has two revisions of the same library:
  * `src/streams.py`            — an older flat-module revision (modelled in
    namespace `PyStreams.Legacy`);
  * `src/streams/streams.py` and `src/streams/collectors.py` — the package
    revision (modelled in namespace `PyStreams`).

  A `Stream` wraps a one-shot Python iterator.  For a finite source the
  observable content of the iterator is a `List`, so stream stages are
  modelled as functions on lists.  Where Python's dynamic typing matters
  (the `None` returned by `reduce` on empty input lives in the same value
  domain as the elements) we work over an explicit type `PyObj` of runtime
  values.  Where an operation can raise, the model returns `Except PyError`:
  `PyError.runtimeError` models the `RuntimeError` that PEP 479 raises when
  a `StopIteration` escapes a generator body (Python >= 3.7; this code uses
  `list[_T]` annotations and therefore runs on >= 3.9), and
  `PyError.valueError` models `ValueError` with its message.
-/

namespace PyStreams

/-- A (tiny fragment of the) domain of Python runtime values, used where the
dynamic typing of the source matters.  `PyObj.none` is the `None` object. -/
inductive PyObj where
  | none
  | int (n : Int)
  | str (s : String)
  deriving DecidableEq, Repr

/-- Exceptions the modelled operations can raise.  `runtimeError` is the
PEP 479 "generator raised StopIteration" RuntimeError; `valueError msg` is
`ValueError(msg)`. -/
inductive PyError where
  | runtimeError
  | valueError (msg : String)
  deriving DecidableEq, Repr

/-- `Stream.map(mapper)` (src/streams/streams.py line 123-124) wraps Python's
builtin `map`; over a finite source it materialises to `List.map`. -/
def Stream.map (mapper : α → β) (xs : List α) : List β :=
  xs.map mapper

/-- `Stream.reduce_identity(identity, accumulator)`
(src/streams/streams.py lines 187-190): the loop
`for v in self.it: identity = accumulator(identity, v); return identity`. -/
def Stream.reduce_identity (identity : β) (accumulator : β → α → β) :
    List α → β
  | [] => identity
  | v :: rest => Stream.reduce_identity (accumulator identity v) accumulator rest

/-- `Stream.reduce(accumulator)` (src/streams/streams.py lines 192-197):
`next(self.it)` raising StopIteration means the source was empty and `None`
is returned (modelled `Option.none`); otherwise the first element seeds
`reduce_identity`. -/
def Stream.reduce (accumulator : α → α → α) : List α → Option α
  | [] => Option.none
  | x :: xs => Option.some (Stream.reduce_identity x accumulator xs)

/-- The runtime value `Stream.reduce` actually returns.  The annotation
`Optional[_T]` is erased at runtime: the `return None` on line 196 returns the
object `None`, in the same value domain as the elements, so the typed model's
`Option` collapses through `Option.getD`. -/
def Stream.reduceRet (accumulator : PyObj → PyObj → PyObj) (xs : List PyObj) :
    PyObj :=
  (Stream.reduce accumulator xs).getD PyObj.none

/-- The loop of the older revision's `Stream.reduce`
(src/streams.py lines 164-165): `for v in self.it: result = accumulator(result, v)`. -/
def Legacy.reduceLoop (accumulator : α → α → α) (result : α) : List α → α
  | [] => result
  | v :: rest => Legacy.reduceLoop accumulator (accumulator result v) rest

/-- `Stream.reduce(accumulator)` of the older revision
(src/streams.py lines 159-166): empty source returns `None`, otherwise the
first element seeds the direct loop. -/
def Legacy.reduce (accumulator : α → α → α) : List α → Option α
  | [] => Option.none
  | x :: xs => Option.some (Legacy.reduceLoop accumulator x xs)

/-- The `Collector` contract (src/streams/streams.py lines 23-34): a supplier
producing the accumulator, a two-argument accumulation step, and a finisher.
The Python accumulator mutates its first argument in place (the driver ignores
its return value); in the state-passing model the step returns the updated
accumulator. -/
structure Collector (τ α ρ : Type) where
  supplier : α
  accumulator : α → τ → α
  finisher : α → ρ

/-- One observable call made by the `collect` driver on its collector, with the
arguments it was called with. -/
inductive CollectorCall (τ α : Type) where
  | supplierCall
  | accumulatorCall (acc : α) (value : τ)
  | finisherCall (acc : α)

/-- Whether a recorded call is an accumulation step. -/
def CollectorCall.isAccumulator : CollectorCall τ α → Bool
  | .accumulatorCall _ _ => true
  | _ => false

/-- The element argument of a recorded accumulation step, if any. -/
def CollectorCall.elem : CollectorCall τ α → Option τ
  | .accumulatorCall _ v => Option.some v
  | _ => Option.none

/-- The loop of `Stream.collect` (src/streams/streams.py lines 204-205):
`for value in self.it: collector.accumulator(result, value)`.  Returns the
final accumulator together with the trace of accumulator calls the loop makes,
in the order it makes them. -/
def Stream.collectLoop (c : Collector τ α ρ) (result : α) :
    List τ → α × List (CollectorCall τ α)
  | [] => (result, [])
  | value :: rest =>
    let next := Stream.collectLoop c (c.accumulator result value) rest
    (next.1, CollectorCall.accumulatorCall result value :: next.2)

/-- `Stream.collect(collector)` (src/streams/streams.py lines 202-206):
`result = collector.supplier()`, then the accumulation loop, then
`return collector.finisher(result)`.  Returns the finisher's result together
with the full call trace in program order. -/
def Stream.collect (c : Collector τ α ρ) (xs : List τ) :
    ρ × List (CollectorCall τ α) :=
  let fin := Stream.collectLoop c c.supplier xs
  (c.finisher fin.1,
    CollectorCall.supplierCall :: fin.2 ++ [CollectorCall.finisherCall fin.1])

/-- `self.limit(max_size).to_list()` over a finite remaining source
(src/streams/streams.py lines 117-121, identical in src/streams.py lines
89-93).  The stage's generator runs `for _ in range(max_size): yield
next(self.it)`; each iteration pulls one element, and when the source is
already exhausted the `StopIteration` raised by `next` escapes the generator
body, which PEP 479 converts into a `RuntimeError` that `to_list` propagates. -/
def Stream.limitToList : List α → Nat → Except PyError (List α)
  | _, 0 => Except.ok []
  | [], _ + 1 => Except.error PyError.runtimeError
  | x :: rest, n + 1 => (Stream.limitToList rest n).map (x :: ·)

/-- `Stream.max()` (src/streams/streams.py lines 126-127) delegates to
Python's builtin `max`, which raises `ValueError` on an empty iterable and
otherwise folds the iterator keeping the larger value. -/
def Stream.max [LinearOrder α] : List α → Except PyError α
  | [] => Except.error (PyError.valueError "max() arg is an empty sequence")
  | x :: xs => Except.ok (List.foldl Max.max x xs)

/-- `Stream.min()` (src/streams/streams.py lines 129-130) delegates to
Python's builtin `min`. -/
def Stream.min [LinearOrder α] : List α → Except PyError α
  | [] => Except.error (PyError.valueError "min() arg is an empty sequence")
  | x :: xs => Except.ok (List.foldl Min.min x xs)

/-- `Stream.iterate(seed, f)` (src/streams/streams.py lines 108-115): the
generator `x = seed; while True: yield x; x = f(x)` never exhausts, and its
i-th yielded value (0-based) is `f^[i] seed`.  The infinite cursor is modelled
as the function sending a pull index to the value produced by that pull. -/
def Stream.iterate (seed : α) (f : α → α) : Nat → α :=
  fun i => f^[i] seed

/-- `self.limit(n).to_list()` over an inexhaustible source: the stage's
generator performs exactly `n` pulls (pull indices `0..n-1`) and none of them
raises, so the result is the list of the first `n` values of the cursor. -/
def Stream.limitOfInfinite (source : Nat → α) (n : Nat) : List α :=
  (List.range n).map source

/-- The `joining` collector (src/streams/collectors.py lines 93-113):
supplier `[]`, accumulator `result.append(value)`, finisher
`self.prefix + self.delimiter.join(result) + self.suffix` (`str.join` is
`String.intercalate`).  `pre`/`suf` stand for the source's prefix/suffix
attributes. -/
def joining (delimiter pre suf : String) : Collector String (List String) String where
  supplier := []
  accumulator := fun result value => result ++ [value]
  finisher := fun result => pre ++ String.intercalate delimiter result ++ suf

/-- One accumulation step of the `to_dict` collector
(src/streams/collectors.py lines 261-265): compute the key; if it is already
present raise `ValueError('duplicate key')`, otherwise insert the key/value
pair.  The Python dict is modelled as its insertion-ordered association
list. -/
def to_dict_step [DecidableEq κ] (key_mapper : τ → κ) (value_mapper : τ → β)
    (result : List (κ × β)) (value : τ) : Except PyError (List (κ × β)) :=
  let key := key_mapper value
  if key ∈ result.map Prod.fst then
    Except.error (PyError.valueError "duplicate key")
  else
    Except.ok (result ++ [(key, value_mapper value)])

/-- The `collect` loop driving `to_dict`'s accumulator over the elements: a
`ValueError` raised by an accumulation step propagates out of the loop at
once, so later elements are not processed and the finisher is never
reached. -/
def to_dict_run [DecidableEq κ] (key_mapper : τ → κ) (value_mapper : τ → β)
    (result : List (κ × β)) : List τ → Except PyError (List (κ × β))
  | [] => Except.ok result
  | value :: rest =>
    match to_dict_step key_mapper value_mapper result value with
    | Except.error e => Except.error e
    | Except.ok r => to_dict_run key_mapper value_mapper r rest

/-- `Stream.collect(to_dict(key_mapper, value_mapper))`: the driver starts
from the supplier's empty dict and, when no step raises, returns the
finisher's result, which is the accumulated dict itself
(src/streams/collectors.py lines 258-268). -/
def to_dict_collect [DecidableEq κ] (key_mapper : τ → κ) (value_mapper : τ → β)
    (xs : List τ) : Except PyError (List (κ × β)) :=
  to_dict_run key_mapper value_mapper [] xs

/-! Helper lemmas. -/

/-- The state-threading loop of `reduce_identity` is the left fold. -/
theorem reduce_identity_eq_foldl (accumulator : β → α → β) :
    ∀ (xs : List α) (identity : β),
      Stream.reduce_identity identity accumulator xs
        = List.foldl accumulator identity xs := by
  intro xs
  induction xs with
  | nil => intro identity; rfl
  | cons v rest ih =>
    intro identity
    simpa [Stream.reduce_identity] using ih (accumulator identity v)

/-- The older revision's reduce loop computes the same state as the package
revision's `reduce_identity`. -/
theorem legacy_reduceLoop_eq (accumulator : α → α → α) :
    ∀ (xs : List α) (result : α),
      Legacy.reduceLoop accumulator result xs
        = Stream.reduce_identity result accumulator xs := by
  intro xs
  induction xs with
  | nil => intro result; rfl
  | cons v rest ih =>
    intro result
    simpa [Legacy.reduceLoop, Stream.reduce_identity]
      using ih (accumulator result v)

/-- The accumulation loop of `collect` computes the left fold of the
accumulator, and its trace consists of accumulation calls only, carrying
exactly the input elements in order. -/
theorem collectLoop_spec (c : Collector τ α ρ) :
    ∀ (xs : List τ) (a : α),
      (Stream.collectLoop c a xs).1 = List.foldl c.accumulator a xs
    ∧ (∀ e ∈ (Stream.collectLoop c a xs).2, e.isAccumulator = true)
    ∧ (Stream.collectLoop c a xs).2.map CollectorCall.elem
        = xs.map Option.some := by
  intro xs
  induction xs with
  | nil =>
    intro a
    exact ⟨rfl, by simp [Stream.collectLoop], by simp [Stream.collectLoop]⟩
  | cons v rest ih =>
    intro a
    obtain ⟨h1, h2, h3⟩ := ih (c.accumulator a v)
    refine ⟨by simpa [Stream.collectLoop] using h1, ?_, ?_⟩
    · intro e he
      simp only [Stream.collectLoop, List.mem_cons] at he
      rcases he with he | he
      · rw [he]; rfl
      · exact h2 e he
    · simp [Stream.collectLoop, CollectorCall.elem, h3]

/-- Folding list append over a list appends it. -/
theorem foldl_append_singleton :
    ∀ (xs a : List α),
      List.foldl (fun r v => r ++ [v]) a xs = a ++ xs := by
  intro xs
  induction xs with
  | nil => intro a; simp
  | cons v rest ih => intro a; simp [ih (a ++ [v])]

/-- The seed is bounded by the max fold. -/
theorem le_foldl_max [LinearOrder α] :
    ∀ (xs : List α) (x : α), x ≤ List.foldl Max.max x xs := by
  intro xs
  induction xs with
  | nil => intro x; exact le_refl x
  | cons v rest ih =>
    intro x
    exact le_trans (le_max_left x v) (ih (Max.max x v))

/-- The max fold returns one of the traversed elements. -/
theorem foldl_max_mem [LinearOrder α] :
    ∀ (xs : List α) (x : α), List.foldl Max.max x xs ∈ x :: xs := by
  intro xs
  induction xs with
  | nil => intro x; simp
  | cons v rest ih =>
    intro x
    have h := ih (Max.max x v)
    simp only [List.foldl_cons]
    rcases List.mem_cons.mp h with h | h
    · rcases max_choice x v with hc | hc
      · rw [h, hc]; exact List.mem_cons_self _ _
      · rw [h, hc]; exact List.mem_cons_of_mem _ (List.mem_cons_self _ _)
    · exact List.mem_cons_of_mem _ (List.mem_cons_of_mem _ h)

/-- The max fold bounds every traversed element from above. -/
theorem foldl_max_le [LinearOrder α] :
    ∀ (xs : List α) (x y : α), y ∈ x :: xs → y ≤ List.foldl Max.max x xs := by
  intro xs
  induction xs with
  | nil =>
    intro x y hy
    simp only [List.mem_cons, List.not_mem_nil, or_false] at hy
    simp [hy]
  | cons v rest ih =>
    intro x y hy
    simp only [List.foldl_cons]
    rcases List.mem_cons.mp hy with h | h
    · rw [h]
      exact le_trans (le_max_left x v) (le_foldl_max rest (Max.max x v))
    · rcases List.mem_cons.mp h with h2 | h2
      · rw [h2]
        exact le_trans (le_max_right x v) (le_foldl_max rest (Max.max x v))
      · exact ih (Max.max x v) y (List.mem_cons_of_mem _ h2)

/-- The min fold is bounded by the seed. -/
theorem foldl_min_le_seed [LinearOrder α] :
    ∀ (xs : List α) (x : α), List.foldl Min.min x xs ≤ x := by
  intro xs
  induction xs with
  | nil => intro x; exact le_refl x
  | cons v rest ih =>
    intro x
    exact le_trans (ih (Min.min x v)) (min_le_left x v)

/-- The min fold returns one of the traversed elements. -/
theorem foldl_min_mem [LinearOrder α] :
    ∀ (xs : List α) (x : α), List.foldl Min.min x xs ∈ x :: xs := by
  intro xs
  induction xs with
  | nil => intro x; simp
  | cons v rest ih =>
    intro x
    have h := ih (Min.min x v)
    simp only [List.foldl_cons]
    rcases List.mem_cons.mp h with h | h
    · rcases min_choice x v with hc | hc
      · rw [h, hc]; exact List.mem_cons_self _ _
      · rw [h, hc]; exact List.mem_cons_of_mem _ (List.mem_cons_self _ _)
    · exact List.mem_cons_of_mem _ (List.mem_cons_of_mem _ h)

/-- The min fold bounds every traversed element from below. -/
theorem foldl_min_le [LinearOrder α] :
    ∀ (xs : List α) (x y : α), y ∈ x :: xs → List.foldl Min.min x xs ≤ y := by
  intro xs
  induction xs with
  | nil =>
    intro x y hy
    simp only [List.mem_cons, List.not_mem_nil, or_false] at hy
    simp [hy]
  | cons v rest ih =>
    intro x y hy
    simp only [List.foldl_cons]
    rcases List.mem_cons.mp hy with h | h
    · rw [h]
      exact le_trans (foldl_min_le_seed rest (Min.min x v)) (min_le_left x v)
    · rcases List.mem_cons.mp h with h2 | h2
      · rw [h2]
        exact le_trans (foldl_min_le_seed rest (Min.min x v)) (min_le_right x v)
      · exact ih (Min.min x v) y (List.mem_cons_of_mem _ h2)

/-- A `to_dict` accumulation run that succeeds on a first batch of elements
continues on appended elements from the accumulated dict. -/
theorem to_dict_run_append_ok [DecidableEq κ] (key_mapper : τ → κ)
    (value_mapper : τ → β) (zs : List τ) :
    ∀ (ys : List τ) (acc r : List (κ × β)),
      to_dict_run key_mapper value_mapper acc ys = Except.ok r →
      to_dict_run key_mapper value_mapper acc (ys ++ zs)
        = to_dict_run key_mapper value_mapper r zs := by
  intro ys
  induction ys with
  | nil =>
    intro acc r h
    simp only [to_dict_run, Except.ok.injEq] at h
    rw [List.nil_append, h]
  | cons v rest ih =>
    intro acc r h
    simp only [to_dict_run, List.cons_append] at h ⊢
    cases hstep : to_dict_step key_mapper value_mapper acc v with
    | error e => rw [hstep] at h; exact absurd h (by simp)
    | ok r2 => rw [hstep] at h; exact ih r2 r h

/-- A `to_dict` accumulation run that raises on a first batch of elements
raises identically when further elements follow: the exception propagates
before they are reached. -/
theorem to_dict_run_append_error [DecidableEq κ] (key_mapper : τ → κ)
    (value_mapper : τ → β) (zs : List τ) :
    ∀ (ys : List τ) (acc : List (κ × β)) (e : PyError),
      to_dict_run key_mapper value_mapper acc ys = Except.error e →
      to_dict_run key_mapper value_mapper acc (ys ++ zs)
        = Except.error e := by
  intro ys
  induction ys with
  | nil =>
    intro acc e h
    exact absurd h (by simp [to_dict_run])
  | cons v rest ih =>
    intro acc e h
    simp only [to_dict_run, List.cons_append] at h ⊢
    cases hstep : to_dict_step key_mapper value_mapper acc v with
    | error e2 => rw [hstep] at h; exact h
    | ok r2 => rw [hstep] at h; exact ih r2 e h

/-- When the keys still to be inserted are fresh and mutually distinct, the
`to_dict` accumulation run succeeds and appends all pairs in order. -/
theorem to_dict_run_ok [DecidableEq κ] (key_mapper : τ → κ)
    (value_mapper : τ → β) :
    ∀ (ys : List τ) (acc : List (κ × β)),
      (acc.map Prod.fst ++ ys.map key_mapper).Nodup →
      to_dict_run key_mapper value_mapper acc ys
        = Except.ok (acc ++ ys.map (fun v => (key_mapper v, value_mapper v))) := by
  intro ys
  induction ys with
  | nil => intro acc _; simp [to_dict_run]
  | cons v rest ih =>
    intro acc h
    have hnotmem : key_mapper v ∉ acc.map Prod.fst := by
      intro hmem
      exact (List.nodup_append.mp h).2.2 hmem (List.mem_cons_self _ _)
    have hstep : to_dict_step key_mapper value_mapper acc v
        = Except.ok (acc ++ [(key_mapper v, value_mapper v)]) := by
      simp [to_dict_step, hnotmem]
    have hrec : ((acc ++ [(key_mapper v, value_mapper v)]).map Prod.fst
        ++ rest.map key_mapper).Nodup := by
      simpa [List.append_assoc] using h
    simp only [to_dict_run, hstep]
    rw [ih _ hrec]
    simp

/-! Claim theorems. -/

/-- C1: for every collector and finite input, `collect` calls the supplier
exactly once (first), then the accumulator once per element in cursor order
(the trace between the supplier call and the finisher call consists of
accumulation calls whose element arguments are exactly the input in order),
then the finisher exactly once on the fully accumulated state, after all
accumulation steps and never before, and returns the finisher's result. -/
theorem collect_calls_protocol (c : Collector τ α ρ) (xs : List τ) :
    ∃ steps : List (CollectorCall τ α),
      (Stream.collect c xs).2
        = CollectorCall.supplierCall :: steps
            ++ [CollectorCall.finisherCall
                  (List.foldl c.accumulator c.supplier xs)]
    ∧ (∀ e ∈ steps, e.isAccumulator = true)
    ∧ steps.map CollectorCall.elem = xs.map Option.some
    ∧ (Stream.collect c xs).1
        = c.finisher (List.foldl c.accumulator c.supplier xs) := by
  obtain ⟨h1, h2, h3⟩ := collectLoop_spec c xs c.supplier
  exact ⟨(Stream.collectLoop c c.supplier xs).2,
    by simp [Stream.collect, h1], h2, h3, by simp [Stream.collect, h1]⟩

/-- C2 (evaluation at the failing input): on the two-element source `[1, 2]`,
`limit(3).to_list()` raises the PEP 479 RuntimeError instead of yielding the
two remaining elements, while `limit(0)` and `limit(2)` behave as the spec
says. -/
theorem limit_overrun_eval :
    Stream.limitToList ([1, 2] : List Int) 3 = Except.error PyError.runtimeError
  ∧ Stream.limitToList ([1, 2] : List Int) 0 = Except.ok []
  ∧ Stream.limitToList ([1, 2] : List Int) 2 = Except.ok [1, 2] :=
  ⟨rfl, rfl, rfl⟩

/-- C3: collecting any finite list of strings with
`joining(delimiter, prefix, suffix)` returns the joined elements wrapped in
the prefix and suffix exactly once each, and in particular
`["0","1","2"]` with `joining(', ', '[', ']')` gives `"[0, 1, 2]"`. -/
theorem joining_collect_spec (delimiter pre suf : String) (es : List String) :
    (Stream.collect (joining delimiter pre suf) es).1
      = pre ++ String.intercalate delimiter es ++ suf
  ∧ (Stream.collect (joining ", " "[" "]") ["0", "1", "2"]).1 = "[0, 1, 2]" := by
  constructor
  · have h := (collectLoop_spec (joining delimiter pre suf) es
      (joining delimiter pre suf).supplier).1
    simp only [Stream.collect, h]
    simp [joining, foldl_append_singleton]
  · rfl

/-- C5: `reduce` returns the absent-value indicator on an empty source and
the left fold seeded by the first element otherwise; in particular reducing
`[1, 2, 3]` with addition gives `6`. -/
theorem reduce_fold_spec :
    (∀ (α : Type) (accumulator : α → α → α),
        Stream.reduce accumulator ([] : List α) = Option.none
      ∧ ∀ (x : α) (xs : List α),
          Stream.reduce accumulator (x :: xs)
            = Option.some (List.foldl accumulator x xs))
  ∧ Stream.reduce (· + ·) ([1, 2, 3] : List Int) = Option.some 6 := by
  refine ⟨fun α accumulator => ⟨rfl, fun x xs => ?_⟩, rfl⟩
  simp [Stream.reduce, reduce_identity_eq_foldl]

/-- C6 counterexample: the value `reduce` returns on empty input is the
`None` object, which is not distinct from element values: on the non-empty
source `[None]` the result of `reduce` equals the empty-source result. -/
theorem reduce_absent_counterexample :
    ([PyObj.none] : List PyObj) ≠ []
  ∧ Stream.reduceRet (fun a _ => a) [PyObj.none]
      = Stream.reduceRet (fun a _ => a) [] :=
  ⟨by simp, rfl⟩

/-- C6 amended: the absent-value indicator is the `None` object itself, so it
coincides with the result on any non-empty source whose fold yields `None`;
distinctness holds exactly for non-empty sources whose fold result is not
`None`. -/
theorem reduce_absent_amended (accumulator : PyObj → PyObj → PyObj)
    (x : PyObj) (xs : List PyObj)
    (h : Stream.reduce_identity x accumulator xs ≠ PyObj.none) :
    Stream.reduceRet accumulator (x :: xs)
      ≠ Stream.reduceRet accumulator [] := by
  simpa [Stream.reduceRet, Stream.reduce] using h

/-- Witness for the amended C6 at the concrete non-empty source `[1]`. -/
theorem reduce_absent_amended_witness :
    Stream.reduce_identity (PyObj.int 1) (fun a _ => a) ([] : List PyObj)
        ≠ PyObj.none
  ∧ Stream.reduceRet (fun a _ => a) [PyObj.int 1]
      ≠ Stream.reduceRet (fun a _ => a) [] :=
  ⟨by decide, reduce_absent_amended (fun a _ => a) (PyObj.int 1) [] (by decide)⟩

/-- C8: mapping with `f` and then with `g` produces the same materialised
sequence as mapping once with their composition. -/
theorem map_map_fusion (f : α → β) (g : β → γ) (s : List α) :
    Stream.map g (Stream.map f s) = Stream.map (fun x => g (f x)) s := by
  simp [Stream.map]

/-- C9: limiting the infinite `iterate(1, x * 2)` source to 5 elements
terminates with exactly `[1, 2, 4, 8, 16]`, and the limited result depends
only on the first `n` pulls of the source — nothing beyond them is demanded,
so no unbounded buffering occurs. -/
theorem iterate_limit_spec :
    Stream.limitOfInfinite (Stream.iterate 1 (fun x => x * 2)) 5
      = ([1, 2, 4, 8, 16] : List Nat)
  ∧ ∀ (α : Type) (s t : Nat → α) (n : Nat),
      (∀ i < n, s i = t i) →
      Stream.limitOfInfinite s n = Stream.limitOfInfinite t n := by
  constructor
  · rfl
  · intro α s t n h
    simp only [Stream.limitOfInfinite]
    exact List.map_congr_left fun i hi => h i (List.mem_range.mp hi)

/-- Witness for C9's locality conjunct: two sources agreeing on the first
three pulls produce the same limited result. -/
theorem iterate_limit_spec_witness :
    (∀ i < 3, (fun j => j + 1) i = (fun j => if j < 3 then j + 1 else 99) i)
  ∧ Stream.limitOfInfinite (fun j => j + 1) 3
      = Stream.limitOfInfinite (fun j => if j < 3 then j + 1 else 99) 3 :=
  ⟨by decide, iterate_limit_spec.2 Nat _ _ 3 (by decide)⟩

/-- C10: the older direct-loop revision of `reduce` and the package revision
that delegates to `reduce_identity` agree on every finite source and binary
operation, including the empty-source result. -/
theorem reduce_revisions_equiv (accumulator : α → α → α) (xs : List α) :
    Legacy.reduce accumulator xs = Stream.reduce accumulator xs := by
  cases xs with
  | nil => rfl
  | cons x rest =>
    simp [Legacy.reduce, Stream.reduce, legacy_reduceLoop_eq]

/-- C7: on an empty remaining source `max()` and `min()` raise an explicit
empty-sequence `ValueError` (they never return a default), and on a non-empty
totally ordered source they return an element of the source that bounds every
element from above (respectively below). -/
theorem max_min_spec [LinearOrder α] (x : α) (xs : List α) :
    Stream.max ([] : List α)
        = Except.error (PyError.valueError "max() arg is an empty sequence")
  ∧ Stream.min ([] : List α)
        = Except.error (PyError.valueError "min() arg is an empty sequence")
  ∧ Stream.max (x :: xs) = Except.ok (List.foldl Max.max x xs)
  ∧ List.foldl Max.max x xs ∈ x :: xs
  ∧ (∀ y ∈ x :: xs, y ≤ List.foldl Max.max x xs)
  ∧ Stream.min (x :: xs) = Except.ok (List.foldl Min.min x xs)
  ∧ List.foldl Min.min x xs ∈ x :: xs
  ∧ (∀ y ∈ x :: xs, List.foldl Min.min x xs ≤ y) :=
  ⟨rfl, rfl, rfl, foldl_max_mem xs x, fun y hy => foldl_max_le xs x y hy,
    rfl, foldl_min_mem xs x, fun y hy => foldl_min_le xs x y hy⟩

/-- Witness for C7 on the concrete source `[2, 5, 1]`. -/
theorem max_min_spec_witness :
    Stream.max ((2 : Int) :: [5, 1]) = Except.ok (List.foldl Max.max 2 [5, 1])
  ∧ ((5 : Int) ∈ (2 : Int) :: [5, 1])
  ∧ (5 : Int) ≤ List.foldl Max.max (2 : Int) [5, 1] := by
  have h := max_min_spec (2 : Int) [5, 1]
  exact ⟨h.2.2.1, by decide, h.2.2.2.2.1 5 (by decide)⟩

/-- A `to_dict` accumulation step whose computed key is already present in
the dict raises the duplicate-key error. -/
theorem to_dict_step_dup [DecidableEq κ] (key_mapper : τ → κ)
    (value_mapper : τ → β) (acc : List (κ × β)) (v : τ)
    (h : key_mapper v ∈ acc.map Prod.fst) :
    to_dict_step key_mapper value_mapper acc v
      = Except.error (PyError.valueError "duplicate key") := by
  simp [to_dict_step, h]

/-- C4: collecting with `to_dict(key_fn, value_fn)` returns the mapping from
each computed key to its value when all keys are distinct; otherwise the
accumulation step of the first element whose key repeats an earlier key raises
the duplicate-key `ValueError` (already on the prefix ending at that element),
which propagates to the caller — no value is ever silently kept or
overwritten. -/
theorem to_dict_collect_spec [DecidableEq κ] (key_mapper : τ → κ)
    (value_mapper : τ → β) (xs : List τ) :
    ((xs.map key_mapper).Nodup →
      to_dict_collect key_mapper value_mapper xs
        = Except.ok (xs.map (fun v => (key_mapper v, value_mapper v))))
  ∧ (∀ i (hi : i < xs.length),
      ((xs.take i).map key_mapper).Nodup →
      key_mapper (xs.get ⟨i, hi⟩) ∈ (xs.take i).map key_mapper →
      to_dict_collect key_mapper value_mapper (xs.take (i + 1))
          = Except.error (PyError.valueError "duplicate key")
      ∧ to_dict_collect key_mapper value_mapper xs
          = Except.error (PyError.valueError "duplicate key")) := by
  constructor
  · intro h
    unfold to_dict_collect
    rw [to_dict_run_ok key_mapper value_mapper xs [] (by simpa using h)]
    simp
  · intro i hi hnd hmem
    have htake : xs.take (i + 1) = xs.take i ++ [xs.get ⟨i, hi⟩] := by
      rw [← List.take_concat_get' xs i hi]
      rfl
    have hok : to_dict_run key_mapper value_mapper [] (xs.take i)
        = Except.ok ((xs.take i).map
            (fun v => (key_mapper v, value_mapper v))) :=
      to_dict_run_ok key_mapper value_mapper (xs.take i) [] (by simpa using hnd)
    have hmem2 : key_mapper (xs.get ⟨i, hi⟩)
        ∈ ((xs.take i).map
            (fun v => (key_mapper v, value_mapper v))).map Prod.fst := by
      rw [List.map_map]
      exact hmem
    have hstep : to_dict_step key_mapper value_mapper
          ((xs.take i).map (fun v => (key_mapper v, value_mapper v)))
          (xs.get ⟨i, hi⟩)
        = Except.error (PyError.valueError "duplicate key") :=
      to_dict_step_dup key_mapper value_mapper _ _ hmem2
    have h1 : to_dict_collect key_mapper value_mapper (xs.take (i + 1))
        = Except.error (PyError.valueError "duplicate key") := by
      unfold to_dict_collect
      rw [htake, to_dict_run_append_ok key_mapper value_mapper
        [xs.get ⟨i, hi⟩] (xs.take i) [] _ hok]
      simp only [to_dict_run]
      rw [hstep]
    refine ⟨h1, ?_⟩
    have h2 := to_dict_run_append_error key_mapper value_mapper
      (xs.drop (i + 1)) (xs.take (i + 1)) [] _ h1
    rwa [List.take_append_drop] at h2

/-- Witness for C4: distinct keys succeed on `[1, 2]`; the repeat of key `1`
in `[1, 2, 1]` raises the duplicate-key error. -/
theorem to_dict_collect_spec_witness :
    to_dict_collect (fun n : Nat => n) (fun n => n) [1, 2]
        = Except.ok [(1, 1), (2, 2)]
  ∧ to_dict_collect (fun n : Nat => n) (fun n => n) [1, 2, 1]
        = Except.error (PyError.valueError "duplicate key") := by
  constructor
  · exact (to_dict_collect_spec (fun n : Nat => n) (fun n => n) [1, 2]).1
      (by decide)
  · exact ((to_dict_collect_spec (fun n : Nat => n) (fun n => n) [1, 2, 1]).2
      2 (by decide) (by decide) (by decide)).2

end PyStreams
